import Mathlib

/-!
# Verification of the pr-auto-reviewer core

A shallow embedding of the diff-position resolver, the comment
validation pipeline and its surrounding orchestration from
`src/github_client.py`, `src/main.py`, `src/code_reviewer.py` and
`src/models/`, together with theorems settling the specified
properties.  Strings are modelled as `List Char` (Python `str`),
Python `set[int]` as `Finset Nat`, and Python `dict` as association
lists.
-/

namespace PRAutoReviewer

/-- Python `l.startswith(p)` on character lists. -/
def startsWithC : List Char → List Char → Bool
  | _, [] => true
  | [], _ :: _ => false
  | c :: cs, p :: ps => c = p && startsWithC cs ps

/-- Value of the maximal leading digit run of a character list, accumulator
style — Python `int` applied to the match group of a digits-regex. -/
def digitRunVal : List Char → Nat → Nat
  | c :: cs, acc => if c.isDigit then digitRunVal cs (acc * 10 + (c.toNat - 48)) else acc
  | [], acc => acc

/-- Python `re.search` for a plus sign followed by one or more digits
(the pattern used on hunk-header lines in `parse_patch_lines`): scan left to
right for the first `'+'` that is immediately followed by a digit and return
the integer value of the maximal digit run after it. -/
def findPlusNum : List Char → Option Nat
  | [] => none
  | c :: cs =>
    if c = '+' then
      match cs with
      | d :: _ => if d.isDigit then some (digitRunVal cs 0) else findPlusNum cs
      | [] => none
    else findPlusNum cs

/-- Python `s.split('\n')` on character lists: the empty string splits into
one empty piece, and every newline character separates two pieces. -/
def splitNl : List Char → List (List Char)
  | [] => [[]]
  | c :: cs =>
    if c = '\n' then [] :: splitNl cs
    else
      match splitNl cs with
      | l :: ls => (c :: l) :: ls
      | [] => [[c]]

/-- The `for line in patch.split('\n')` loop of
`GitHubClient.parse_patch_lines` (src/github_client.py lines 201-223),
threading the running counter `current_line` and the accumulated set
`valid_lines`.  A line starting with `@@` sets the counter to the first
`+digits` value found in it, if any, and contributes nothing; a line starting
with `+` but not `+++` inserts the counter and increments it; a line starting
with a space inserts the counter and increments it; a line starting with `-`
but not `---` is a no-op, as is any other line. -/
def parsePatchLoop : List (List Char) → Nat → Finset Nat → Finset Nat
  | [], _, acc => acc
  | l :: ls, cur, acc =>
    if startsWithC l ['@', '@'] then
      parsePatchLoop ls ((findPlusNum l).getD cur) acc
    else if startsWithC l ['+'] && !startsWithC l ['+', '+', '+'] then
      parsePatchLoop ls (cur + 1) (insert cur acc)
    else if startsWithC l [' '] then
      parsePatchLoop ls (cur + 1) (insert cur acc)
    else if startsWithC l ['-'] && !startsWithC l ['-', '-', '-'] then
      parsePatchLoop ls cur acc
    else
      parsePatchLoop ls cur acc

/-- Embeds `GitHubClient.parse_patch_lines` (src/github_client.py lines 186-223):
an empty patch yields the empty set; otherwise the split lines are scanned
by `parsePatchLoop` starting from counter `0` and the empty set. -/
def parse_patch_lines (patch : List Char) : Finset Nat :=
  if patch = [] then ∅ else parsePatchLoop (splitNl patch) 0 ∅

/-- Specification-side description of the parser's output: the list of
new-file line numbers occupied by Added and Context lines, in order.  A hunk
header resets the counter to its parsed new-start value, an Added line
(`+` but not `+++`) occupies the current number and advances it, a Context
line (leading space) occupies the current number and advances it, a Removed
line (`-` but not `---`) neither occupies nor advances, and any other line is
ignored. -/
def occupiedLineNumbers : List (List Char) → Nat → List Nat
  | [], _ => []
  | l :: ls, cur =>
    if startsWithC l ['@', '@'] then
      occupiedLineNumbers ls ((findPlusNum l).getD cur)
    else if startsWithC l ['+'] && !startsWithC l ['+', '+', '+'] then
      cur :: occupiedLineNumbers ls (cur + 1)
    else if startsWithC l [' '] then
      cur :: occupiedLineNumbers ls (cur + 1)
    else if startsWithC l ['-'] && !startsWithC l ['-', '-', '-'] then
      occupiedLineNumbers ls cur
    else
      occupiedLineNumbers ls cur

theorem parsePatchLoop_eq_union (ls : List (List Char)) :
    ∀ cur acc, parsePatchLoop ls cur acc = acc ∪ (occupiedLineNumbers ls cur).toFinset := by
  induction ls with
  | nil => intro cur acc; simp [parsePatchLoop, occupiedLineNumbers]
  | cons l ls ih =>
    intro cur acc
    by_cases h1 : startsWithC l ['@', '@'] = true
    · simp [parsePatchLoop, occupiedLineNumbers, h1, ih]
    · by_cases h2 : (startsWithC l ['+'] && !startsWithC l ['+', '+', '+']) = true
      · simp [parsePatchLoop, occupiedLineNumbers, h1, h2, ih,
          Finset.insert_union, Finset.union_insert]
      · by_cases h3 : startsWithC l [' '] = true
        · simp [parsePatchLoop, occupiedLineNumbers, h1, h2, h3, ih,
            Finset.insert_union, Finset.union_insert]
        · by_cases h4 : (startsWithC l ['-'] && !startsWithC l ['-', '-', '-']) = true
          · simp [parsePatchLoop, occupiedLineNumbers, h1, h2, h3, h4, ih]
          · simp [parsePatchLoop, occupiedLineNumbers, h1, h2, h3, h4, ih]

/-- C1: `parse_patch_lines` returns exactly the set of new-file line numbers
occupied by Added and Context lines of the patch — hunk headers reset the
counter to the parsed new start, `+` (non-`+++`) lines insert the counter and
increment it, space-initial lines insert the counter and increment it, `-`
(non-`---`) lines neither insert nor increment, other lines are ignored —
and the empty patch yields the empty set. -/
theorem parse_patch_lines_exact (patch : List Char) :
    parse_patch_lines patch = (occupiedLineNumbers (splitNl patch) 0).toFinset ∧
    parse_patch_lines [] = ∅ := by
  constructor
  · unfold parse_patch_lines
    by_cases h : patch = []
    · subst h; simp [splitNl, occupiedLineNumbers, parsePatchLoop, startsWithC]
    · simp [h, parsePatchLoop_eq_union]
  · rfl

/-- The synthetic patch of the round-trip scenario: hunk header
`@@ -1,3 +10,3 @@`, one context line, one added line, one removed line, one
context line. -/
def syntheticPatchC2 : List Char :=
  ("@@ -1,3 +10,3 @@\n ctx\n+added\n-removed\n ctx").data

/-- C2 counterexample: the synthetic round-trip patch does not parse to
`{10, 11, 13}` — the inserted numbers are 10, 11 and 12 (the final context
line is inserted at the counter value 12, before the counter advances
to 13). -/
theorem syntheticPatch_not_ten_eleven_thirteen :
    parse_patch_lines syntheticPatchC2 ≠ ({10, 11, 13} : Finset Nat) := by decide

/-- C2 (amended): the synthetic round-trip patch parses to exactly
`{10, 11, 12}`: counter set to 10 by the header; context inserts 10 and
advances to 11; added inserts 11 and advances to 12; removed changes
nothing; context inserts 12 and advances to 13. -/
theorem syntheticPatch_lines :
    parse_patch_lines syntheticPatchC2 = ({10, 11, 12} : Finset Nat) := by decide

/-- Drop the maximal leading digit run of a character list. -/
def dropDigits : List Char → List Char
  | c :: cs => if c.isDigit then dropDigits cs else c :: cs
  | [] => []

/-- Consume `<digits>[,<digits>]` at the front of a character list, returning
the remainder, or `none` when no leading digit is present. -/
def matchNumPair : List Char → Option (List Char)
  | c :: cs =>
    if c.isDigit then
      match dropDigits cs with
      | ',' :: d :: ds => if d.isDigit then some (dropDigits ds) else some (',' :: d :: ds)
      | rest => some rest
    else none
  | [] => none

/-- Whether a line matches the full hunk-header pattern
`@@ -<oldStart>[,<oldCount>] +<newStart>[,<newCount>] @@` (with arbitrary
trailing text), the shape a well-formed unified-diff hunk header takes. -/
def isHunkHeaderPattern (l : List Char) : Bool :=
  match l with
  | '@' :: '@' :: ' ' :: '-' :: rest =>
    match matchNumPair rest with
    | some (' ' :: '+' :: rest2) =>
      match matchNumPair rest2 with
      | some (' ' :: '@' :: '@' :: _) => true
      | _ => false
    | _ => false
  | _ => false

/-- The scanning loop as the specification describes it: a `@@`-initial line
updates the counter only when it matches the full hunk-header pattern; a
malformed header leaves the counter unchanged.  All other cases agree with
`parsePatchLoop`.  This definition follows the spec wording, not the source,
and exists to be compared against `parsePatchLoop`. -/
def parsePatchLoopSpec : List (List Char) → Nat → Finset Nat → Finset Nat
  | [], _, acc => acc
  | l :: ls, cur, acc =>
    if startsWithC l ['@', '@'] then
      if isHunkHeaderPattern l then
        parsePatchLoopSpec ls ((findPlusNum l).getD cur) acc
      else
        parsePatchLoopSpec ls cur acc
    else if startsWithC l ['+'] && !startsWithC l ['+', '+', '+'] then
      parsePatchLoopSpec ls (cur + 1) (insert cur acc)
    else if startsWithC l [' '] then
      parsePatchLoopSpec ls (cur + 1) (insert cur acc)
    else if startsWithC l ['-'] && !startsWithC l ['-', '-', '-'] then
      parsePatchLoopSpec ls cur acc
    else
      parsePatchLoopSpec ls cur acc

/-- C6 counterexample: the line `@@ +99` does not match the hunk-header
pattern, yet the parser sets the counter to 99 on it (the source searches for
any `+digits` in a `@@`-initial line), so the following context line is
recorded as line 99; under the claimed behaviour — malformed header leaves
the counter unchanged — the result would be `{0}`. -/
theorem malformed_header_updates_counter :
    isHunkHeaderPattern (("@@ +99").data) = false ∧
    parse_patch_lines (("@@ +99\n x").data) = ({99} : Finset Nat) ∧
    parsePatchLoopSpec (splitNl (("@@ +99\n x").data)) 0 ∅ = ({0} : Finset Nat) ∧
    ({99} : Finset Nat) ≠ ({0} : Finset Nat) := by
  refine ⟨by decide, by decide, by decide, by decide⟩

/-- C6 (amended): the parser is a total function (it never fails on any
input string), and on any line starting with `@@` — well-formed hunk header
or not — the step inserts nothing into the result set and sets the running
counter to the integer value of the first `+digits` occurrence anywhere in
the line when one exists; only when the line contains no such occurrence is
the counter left unchanged. -/
theorem hunk_header_step (l : List Char) (ls : List (List Char)) (cur : Nat)
    (acc : Finset Nat) (h : startsWithC l ['@', '@'] = true) :
    parsePatchLoop (l :: ls) cur acc = parsePatchLoop ls ((findPlusNum l).getD cur) acc ∧
    (findPlusNum l = none → parsePatchLoop (l :: ls) cur acc = parsePatchLoop ls cur acc) := by
  refine ⟨by simp [parsePatchLoop, h], fun hn => by simp [parsePatchLoop, h, hn]⟩

/-- Concrete instance of `hunk_header_step` at a malformed `@@`-initial line
with no plus-digits occurrence. -/
theorem hunk_header_step_witness :
    startsWithC (("@@ junk").data) ['@', '@'] = true ∧
    parsePatchLoop [("@@ junk").data, (" x").data] 5 ∅ =
      parsePatchLoop [(" x").data] ((findPlusNum (("@@ junk").data)).getD 5) ∅ :=
  ⟨by decide, (hunk_header_step (("@@ junk").data) [(" x").data] 5 ∅ (by decide)).1⟩

/-- A candidate review comment as handed to `GitHubClient.create_review`:
a dict with `path`, `line`, `body` and an optional `side` key. -/
structure CandidateComment where
  path : List Char
  line : Nat
  body : List Char
  side : Option (List Char)
deriving DecidableEq

/-- An accepted comment as formatted for the review payload
(src/github_client.py lines 262-267). -/
structure ReviewComment where
  path : List Char
  line : Nat
  body : List Char
  side : List Char
deriving DecidableEq

/-- A record of a rejected candidate
(src/github_client.py lines 255-259). -/
structure SkippedComment where
  path : List Char
  line : Nat
  reason : List Char
deriving DecidableEq

/-- First matching key of an association list (the lookup underlying a
Python dict whose keys are distinct). -/
def assocLookup : List (List Char × List Char) → List Char → Option (List Char)
  | [], _ => none
  | (k, v) :: ps, path => if k = path then some v else assocLookup ps path

/-- Lookup in the `patches` dict: `None` has no entries, otherwise first
matching key of the association list. -/
def lookupPatch : Option (List (List Char × List Char)) → List Char → Option (List Char)
  | none, _ => none
  | some ps, path => assocLookup ps path

/-- Formatting of an accepted candidate: `side` defaults to `"RIGHT"`
(Python `comment.get("side", "RIGHT")`). -/
def formatComment (c : CandidateComment) : ReviewComment :=
  ⟨c.path, c.line, c.body, c.side.getD (("RIGHT").data)⟩

/-- The skipped record built for a rejected candidate. -/
def skipRecord (c : CandidateComment) : SkippedComment :=
  ⟨c.path, c.line, ("Line not in diff").data⟩

/-- The validation loop of `GitHubClient.create_review`
(src/github_client.py lines 243-267): each candidate whose path has a patch
in `patches` is accepted exactly when its line lies in
`parse_patch_lines` of that patch, and otherwise recorded as skipped; a
candidate whose path has no patch is accepted unconditionally.  Returns the
pair (review_comments, skipped_comments), both in input order. -/
def validateComments :
    List CandidateComment → Option (List (List Char × List Char)) →
    List ReviewComment × List SkippedComment
  | [], _ => ([], [])
  | c :: cs, patches =>
    let rest := validateComments cs patches
    match lookupPatch patches c.path with
    | some patch =>
      if c.line ∈ parse_patch_lines patch then
        (formatComment c :: rest.1, rest.2)
      else
        (rest.1, skipRecord c :: rest.2)
    | none => (formatComment c :: rest.1, rest.2)

/-- The per-candidate decision implicit in the validation loop. -/
def acceptsComment (patches : Option (List (List Char × List Char)))
    (c : CandidateComment) : Bool :=
  match lookupPatch patches c.path with
  | some patch => decide (c.line ∈ parse_patch_lines patch)
  | none => true

/-- C4: validation partitions the candidates — the accepted list is exactly
the in-order image of the candidates the decision accepts, the skipped list
is exactly the in-order image of the candidates it rejects, and the two
lengths sum to the number of candidates, so no candidate is lost or
duplicated and both outputs preserve the input's relative order. -/
theorem validateComments_partition (cs : List CandidateComment)
    (patches : Option (List (List Char × List Char))) :
    (validateComments cs patches).1 =
      cs.filterMap (fun c => if acceptsComment patches c then some (formatComment c) else none) ∧
    (validateComments cs patches).2 =
      cs.filterMap (fun c => if acceptsComment patches c then none else some (skipRecord c)) ∧
    (validateComments cs patches).1.length + (validateComments cs patches).2.length =
      cs.length := by
  induction cs with
  | nil => exact ⟨rfl, rfl, rfl⟩
  | cons c cs ih =>
    obtain ⟨ih1, ih2, ih3⟩ := ih
    cases hl : lookupPatch patches c.path with
    | none =>
      refine ⟨?_, ?_, ?_⟩ <;>
        (simp [validateComments, hl, acceptsComment, ih1, ih2, ← ih3]; try omega)
    | some patch =>
      by_cases hm : c.line ∈ parse_patch_lines patch
      · refine ⟨?_, ?_, ?_⟩ <;>
          (simp [validateComments, hl, acceptsComment, hm, ih1, ih2, ← ih3]; try omega)
      · refine ⟨?_, ?_, ?_⟩ <;>
          (simp [validateComments, hl, acceptsComment, hm, ih1, ih2, ← ih3]; try omega)

/-- C3: for a candidate whose path has a patch in the mapping, the validation
step of `create_review` accepts it exactly when its line is a member of
`parse_patch_lines` of that patch, and otherwise records it as skipped with
reason exactly `"Line not in diff"`. -/
theorem validate_accept_iff (patches : Option (List (List Char × List Char)))
    (c : CandidateComment) (patch : List Char) (cs : List CandidateComment)
    (h : lookupPatch patches c.path = some patch) :
    validateComments (c :: cs) patches =
      (if c.line ∈ parse_patch_lines patch
       then (formatComment c :: (validateComments cs patches).1,
             (validateComments cs patches).2)
       else ((validateComments cs patches).1,
             skipRecord c :: (validateComments cs patches).2)) ∧
    (skipRecord c).reason = ("Line not in diff").data := by
  refine ⟨?_, rfl⟩
  by_cases hm : c.line ∈ parse_patch_lines patch <;> simp [validateComments, h, hm]

/-- The scenario patch adding two lines to a fresh file. -/
def patchC3 : List Char := ("@@ -0,0 +1,2 @@\n+hello\n+world\n").data

/-- A candidate comment on file `f` at a given line. -/
def candAtLine (n : Nat) : CandidateComment :=
  ⟨("f").data, n, ("b").data, none⟩

/-- The scenario instance of `validate_accept_iff`: against the patch
`@@ -0,0 +1,2 @@` + `+hello` + `+world`, a candidate at line 1 is accepted
and a candidate at line 3 is skipped with reason `"Line not in diff"`. -/
theorem validate_accept_iff_witness :
    validateComments [candAtLine 1] (some [(("f").data, patchC3)]) =
      ([formatComment (candAtLine 1)], []) ∧
    validateComments [candAtLine 3] (some [(("f").data, patchC3)]) =
      ([], [⟨("f").data, 3, ("Line not in diff").data⟩]) := by
  have h1 := (validate_accept_iff (some [(("f").data, patchC3)])
    (candAtLine 1) patchC3 [] (by decide)).1
  have h3 := (validate_accept_iff (some [(("f").data, patchC3)])
    (candAtLine 3) patchC3 [] (by decide)).1
  exact ⟨by rw [h1]; decide, by rw [h3]; decide⟩

/-- C5: a candidate whose path has no entry in the patches mapping is
accepted unconditionally and never skipped — the validation step places it at
the head of the accepted list without touching the skipped list, every
skipped record's path does have a patch entry, and a mapping that is absent
or empty has no entry for any path. -/
theorem validate_no_patch_accepts (patches : Option (List (List Char × List Char)))
    (c : CandidateComment) (h : lookupPatch patches c.path = none) :
    (∀ cs, validateComments (c :: cs) patches =
      (formatComment c :: (validateComments cs patches).1,
       (validateComments cs patches).2)) ∧
    (∀ cs, ∀ s ∈ (validateComments cs patches).2, lookupPatch patches s.path ≠ none) ∧
    (∀ p, lookupPatch none p = none) ∧
    (∀ p, lookupPatch (some []) p = none) := by
  refine ⟨fun cs => by simp [validateComments, h], ?_, fun p => rfl, fun p => rfl⟩
  intro cs
  induction cs with
  | nil => intro s hs; simp [validateComments] at hs
  | cons c2 cs ih =>
    intro s hs
    cases hl : lookupPatch patches c2.path with
    | none =>
      simp only [validateComments, hl] at hs
      exact ih s hs
    | some patch =>
      by_cases hm : c2.line ∈ parse_patch_lines patch
      · simp only [validateComments, hl, if_pos hm] at hs
        exact ih s hs
      · simp only [validateComments, hl, if_neg hm, List.mem_cons] at hs
        rcases hs with hs | hs
        · subst hs; simp [skipRecord, hl]
        · exact ih s hs

/-- Concrete instance of `validate_no_patch_accepts`: a candidate whose path
is absent from a non-empty patches mapping is accepted, skipping nothing. -/
theorem validate_no_patch_accepts_witness :
    validateComments [⟨("g").data, 7, ("b").data, none⟩]
      (some [(("f").data, patchC3)]) =
      ([formatComment ⟨("g").data, 7, ("b").data, none⟩], []) :=
  (validate_no_patch_accepts (some [(("f").data, patchC3)])
    ⟨("g").data, 7, ("b").data, none⟩ (by decide)).1 []

/-- The observable submission performed at the end of
`GitHubClient.create_review` (src/github_client.py lines 276-285). -/
inductive ReviewSubmission where
  | review (body : List Char) (event : List Char) (comments : List ReviewComment)
  | issueComment (body : List Char)
  | noSubmission
deriving DecidableEq

/-- Python truthiness of the optional review body (absent or empty string is
falsy). -/
def strTruthy : Option (List Char) → Bool
  | some (_ :: _) => true
  | _ => false

/-- Python `body or "Automated code review"`. -/
def orDefaultBody : Option (List Char) → List Char
  | some (c :: cs) => c :: cs
  | _ => ("Automated code review").data

/-- Embeds `GitHubClient.create_review` (src/github_client.py lines 225-286):
validate the candidates against the patches, then submit a single review
with the accepted comments when any were accepted (body defaulted when
falsy), else post the body as a standalone issue comment when it is truthy,
else do nothing. -/
def create_review (comments : List CandidateComment) (body : Option (List Char))
    (event : List Char) (patches : Option (List (List Char × List Char))) :
    ReviewSubmission :=
  let validated := validateComments comments patches
  if validated.1 ≠ [] then
    ReviewSubmission.review (orDefaultBody body) event validated.1
  else
    match body with
    | some (c :: cs) => ReviewSubmission.issueComment (c :: cs)
    | _ => ReviewSubmission.noSubmission

/-- C7: after validation, `create_review` is a three-way case split — a
non-empty accepted list is submitted as one review with the given event, the
accepted comments and the supplied body (a default placeholder when the body
is absent); an empty accepted list with a present body posts that body as a
standalone issue comment; and with both empty nothing is submitted. -/
theorem create_review_cases (comments : List CandidateComment)
    (body : Option (List Char)) (event : List Char)
    (patches : Option (List (List Char × List Char))) :
    ((validateComments comments patches).1 ≠ [] →
      create_review comments body event patches =
        ReviewSubmission.review (orDefaultBody body) event
          (validateComments comments patches).1) ∧
    ((validateComments comments patches).1 = [] → strTruthy body = true →
      ∃ b, body = some b ∧
        create_review comments body event patches =
          ReviewSubmission.issueComment b) ∧
    ((validateComments comments patches).1 = [] → strTruthy body = false →
      create_review comments body event patches =
        ReviewSubmission.noSubmission) ∧
    (body = none → orDefaultBody body = ("Automated code review").data) := by
  refine ⟨fun h => by simp [create_review, h], fun h ht => ?_, fun h ht => ?_,
    fun h => by subst h; rfl⟩
  · cases body with
    | none => simp [strTruthy] at ht
    | some b =>
      cases b with
      | nil => simp [strTruthy] at ht
      | cons x xs => exact ⟨x :: xs, rfl, by simp [create_review, h]⟩
  · cases body with
    | none => simp [create_review, h]
    | some b =>
      cases b with
      | nil => simp [create_review, h]
      | cons x xs => simp [strTruthy] at ht

/-- Concrete instances of the three cases of `create_review_cases`. -/
theorem create_review_cases_witness :
    create_review [candAtLine 1] none (("COMMENT").data) none =
      ReviewSubmission.review (("Automated code review").data) (("COMMENT").data)
        [formatComment (candAtLine 1)] ∧
    create_review [] (some (("hi").data)) (("COMMENT").data) none =
      ReviewSubmission.issueComment (("hi").data) ∧
    create_review [] none (("COMMENT").data) none =
      ReviewSubmission.noSubmission := by
  have hA := (create_review_cases [candAtLine 1] none (("COMMENT").data) none).1
  have hB := (create_review_cases [] (some (("hi").data)) (("COMMENT").data) none).2.1
  have hC := (create_review_cases [] none (("COMMENT").data) none).2.2.1
  refine ⟨?_, ?_, hC rfl rfl⟩
  · have h := hA (by decide)
    rw [h]; decide
  · obtain ⟨b, hb, hsub⟩ := hB rfl (by decide)
    injection hb with hb2
    subst hb2
    exact hsub

/-- One per-file unit of the parallel analysis phase of `run_review_mode`
(src/main.py): the file's name together with the results the two fallible
collaborator calls (`get_file_content` and the analyze callback) would
deliver for it. -/
structure FileTask where
  filename : List Char
  fetchResult : Except (List Char) (List Char)
  analyzeResult : List Char → Except (List Char) (List CandidateComment)

/-- Embeds `review_file` from `run_review_mode` (src/main.py lines 177-196): fetch
the file content, then analyze it, catching each failure and returning the
triple (filename, comments-or-None, error-or-None). -/
def review_file (t : FileTask) :
    List Char × Option (List CandidateComment) × Option (List Char) :=
  match t.fetchResult with
  | Except.error e => (t.filename, none, some e)
  | Except.ok content =>
    match t.analyzeResult content with
    | Except.ok comments => (t.filename, some comments, none)
    | Except.error e => (t.filename, none, some e)

/-- The parallel fan-out of `run_review_mode` (src/main.py lines 211-226):
one future per file, each computing `review_file`, whose results are
collected in completion order — modelled by an arbitrary completion order
over the task indices. -/
def runParallelAnalysis (tasks : List FileTask) (order : List (Fin tasks.length)) :
    List (List Char × Option (List CandidateComment) × Option (List Char)) :=
  order.map (fun i => review_file (tasks.get i))

/-- C8: against any completion order that delivers every submitted future
exactly once, the parallel phase yields exactly one outcome per input file —
the outcome list is a permutation of the per-file results of `review_file` —
and each file's outcome is determined by its own callbacks alone: a fetch
failure or an analyze failure yields a failure triple carrying that file's
name and the error message, and a file whose callbacks succeed yields its
comments, regardless of any other file's failure. -/
theorem parallel_failure_isolation (tasks : List FileTask)
    (order : List (Fin tasks.length))
    (h : order.Perm (List.finRange tasks.length)) :
    (runParallelAnalysis tasks order).length = tasks.length ∧
    (runParallelAnalysis tasks order).Perm (tasks.map review_file) ∧
    (∀ i : Fin tasks.length, ∀ e,
      (tasks.get i).fetchResult = Except.error e →
      review_file (tasks.get i) = ((tasks.get i).filename, none, some e)) ∧
    (∀ i : Fin tasks.length, ∀ content e,
      (tasks.get i).fetchResult = Except.ok content →
      (tasks.get i).analyzeResult content = Except.error e →
      review_file (tasks.get i) = ((tasks.get i).filename, none, some e)) ∧
    (∀ i : Fin tasks.length, ∀ content comments,
      (tasks.get i).fetchResult = Except.ok content →
      (tasks.get i).analyzeResult content = Except.ok comments →
      review_file (tasks.get i) = ((tasks.get i).filename, some comments, none)) := by
  refine ⟨?_, ?_, ?_, ?_, ?_⟩
  · simp [runParallelAnalysis, h.length_eq]
  · have hm := h.map (fun i => review_file (tasks.get i))
    have h2 : (List.finRange tasks.length).map (fun i => review_file (tasks.get i)) =
        tasks.map review_file := by
      conv_rhs => rw [← List.finRange_map_get tasks]
      rw [List.map_map]
      rfl
    rw [runParallelAnalysis]
    exact h2 ▸ hm
  · intro i e hf
    simp only [review_file, hf]
  · intro i content e hf ha
    simp only [review_file, hf, ha]
  · intro i content comments hf ha
    simp only [review_file, hf, ha]

/-- A task whose fetch succeeds and whose analyze callback delivers `res`. -/
def wTask (name : List Char) (res : Except (List Char) (List CandidateComment)) :
    FileTask :=
  ⟨name, Except.ok (("content").data), fun _ => res⟩

/-- Three tasks of which the middle one's analyze callback raises. -/
def wTasks : List FileTask :=
  [wTask (("a").data) (Except.ok []),
   wTask (("b").data) (Except.error (("boom").data)),
   wTask (("c").data) (Except.ok [])]

/-- A completion order different from submission order. -/
def wOrder : List (Fin 3) := [2, 0, 1]

/-- Concrete instance of `parallel_failure_isolation`: three tasks, the
second one failing, completing in the order third-first-second. -/
theorem parallel_failure_isolation_witness :
    (runParallelAnalysis wTasks wOrder).length = 3 ∧
    review_file (wTasks.get ⟨1, by decide⟩) =
      (("b").data, none, some (("boom").data)) ∧
    review_file (wTasks.get ⟨0, by decide⟩) = (("a").data, some [], none) := by
  have hfr : List.finRange 3 = [0, 1, 2] := by decide
  have hperm : wOrder.Perm (List.finRange 3) := by
    rw [hfr]
    exact (List.Perm.swap 0 2 [1]).trans (List.Perm.cons 0 (List.Perm.swap 1 2 []))
  have H := parallel_failure_isolation wTasks wOrder hperm
  refine ⟨H.1, ?_, ?_⟩
  · exact H.2.2.2.1 ⟨1, by decide⟩ (("content").data) (("boom").data) rfl rfl
  · exact H.2.2.2.2 ⟨0, by decide⟩ (("content").data) [] rfl rfl

/-- Python `s.find(ch)`: index of the first occurrence of a character, or
absent. -/
def strFind : List Char → Char → Option Nat
  | [], _ => none
  | c :: cs, t => if c = t then some 0 else (strFind cs t).map (· + 1)

/-- Python `s.rfind(ch)`: index of the last occurrence of a character, or
absent. -/
def strRFind : List Char → Char → Option Nat
  | [], _ => none
  | c :: cs, t =>
    match strRFind cs t with
    | some i => some (i + 1)
    | none => if c = t then some 0 else none

/-- Python slicing `s[a:b]` for in-range indices. -/
def slice (s : List Char) (a b : Nat) : List Char := (s.drop a).take (b - a)

/-- The extraction step shared by `ClaudeCodeModel.analyze_review` and
`ClaudeCodeModel.review_code` (src/models/claude_code.py): take the
substring from the first occurrence of the opening character to the last
occurrence of the closing character inclusive, provided both exist and the
span is non-empty (`start_idx != -1 and end_idx > start_idx`). -/
def extractTry (openC closeC : Char) (s : List Char) : Option (List Char) :=
  match strFind s openC with
  | none => none
  | some a =>
    match strRFind s closeC with
    | none => none
    | some r => if a < r + 1 then some (slice s a (r + 1)) else none

/-- The dictionary `analyze_review` returns: action, reasoning, changes. -/
structure AnalyzeResult where
  action : List Char
  reasoning : List Char
  changes : List (List Char)
deriving DecidableEq

/-- The fallback value of `analyze_review` when no JSON can be extracted or
decoding fails. -/
def defaultAnalyzeResult : AnalyzeResult :=
  ⟨("no_action").data, ("Could not parse response").data, []⟩

/-- The response-parsing step of `ClaudeCodeModel.analyze_review`
(src/models/claude_code.py lines 99-118), with `json.loads` abstracted as
the `decode` parameter (returning `none` exactly when decoding raises):
extract the substring between the first brace and the last closing brace and
decode it, falling back to `defaultAnalyzeResult` when extraction or
decoding fails. -/
def analyze_review_parse (decode : List Char → Option AnalyzeResult)
    (response : List Char) : AnalyzeResult :=
  match extractTry '\x7b' '\x7d' response with
  | some js =>
    match decode js with
    | some v => v
    | none => defaultAnalyzeResult
  | none => defaultAnalyzeResult

/-- A review comment as decoded from the model's JSON array. -/
structure ModelComment where
  line : Nat
  body : List Char
  severity : List Char
  side : Option (List Char)
deriving DecidableEq

/-- The `comment['side'] = 'RIGHT'` post-processing of `review_code`. -/
def setSideRight (c : ModelComment) : ModelComment :=
  { c with side := some (("RIGHT").data) }

/-- The response handling of `ClaudeCodeModel.review_code`
(src/models/claude_code.py lines 293-315): the whole call is wrapped in a
try-block whose handler returns the empty list, so a failing CLI call yields
`[]`; otherwise the substring between the first opening bracket and the last
closing bracket is decoded (`json.loads` abstracted as `decode`), each
comment is given side `RIGHT`, and any extraction or decoding failure
yields `[]`. -/
def review_code_parse (decode : List Char → Option (List ModelComment))
    (callResult : Except (List Char) (List Char)) : List ModelComment :=
  match callResult with
  | Except.error _ => []
  | Except.ok response =>
    match extractTry '[' ']' response with
    | some js =>
      match decode js with
      | some comments => comments.map setSideRight
      | none => []
    | none => []

/-- C9: model-response parsing is total with a safe-default fallback —
`analyze_review` returns the default no-action result whenever brace
extraction or decoding fails and the decoded value otherwise, `review_code`
returns the empty list whenever the CLI call, bracket extraction or decoding
fails, and a successful extraction is exactly the slice from the first
opening character to one past the last closing character. -/
theorem model_response_parse_safe
    (decodeA : List Char → Option AnalyzeResult)
    (decodeR : List Char → Option (List ModelComment))
    (response : List Char) (call : Except (List Char) (List Char)) :
    (extractTry '\x7b' '\x7d' response = none →
      analyze_review_parse decodeA response = defaultAnalyzeResult) ∧
    (∀ js, extractTry '\x7b' '\x7d' response = some js → decodeA js = none →
      analyze_review_parse decodeA response = defaultAnalyzeResult) ∧
    (∀ js v, extractTry '\x7b' '\x7d' response = some js → decodeA js = some v →
      analyze_review_parse decodeA response = v) ∧
    (∀ e, call = Except.error e → review_code_parse decodeR call = []) ∧
    (∀ resp, call = Except.ok resp → extractTry '[' ']' resp = none →
      review_code_parse decodeR call = []) ∧
    (∀ resp js, call = Except.ok resp → extractTry '[' ']' resp = some js →
      decodeR js = none → review_code_parse decodeR call = []) ∧
    (∀ s js o c, extractTry o c s = some js →
      ∃ a r, strFind s o = some a ∧ strRFind s c = some r ∧ a < r + 1 ∧
        js = slice s a (r + 1)) := by
  refine ⟨fun hx => by simp only [analyze_review_parse, hx],
    fun js hx hd => by simp only [analyze_review_parse, hx, hd],
    fun js v hx hd => by simp only [analyze_review_parse, hx, hd],
    fun e hc => by simp only [review_code_parse, hc],
    fun resp hc hx => by simp only [review_code_parse, hc, hx],
    fun resp js hc hx hd => by simp only [review_code_parse, hc, hx, hd],
    ?_⟩
  intro s js o c hx
  cases ha : strFind s o with
  | none =>
    simp only [extractTry, ha] at hx
    exact absurd hx (by simp)
  | some a =>
    cases hr : strRFind s c with
    | none =>
      simp only [extractTry, ha, hr] at hx
      exact absurd hx (by simp)
    | some r =>
      by_cases hlt : a < r + 1
      · simp only [extractTry, ha, hr, if_pos hlt] at hx
        exact ⟨a, r, rfl, rfl, hlt, (Option.some.inj hx).symm⟩
      · simp only [extractTry, ha, hr, if_neg hlt] at hx
        exact absurd hx (by simp)

/-- Concrete instances of each fallback case of
`model_response_parse_safe`. -/
theorem model_response_parse_safe_witness :
    analyze_review_parse (fun _ => none) (("no json here").data) =
      defaultAnalyzeResult ∧
    analyze_review_parse (fun _ => none) (("x\x7bbad\x7dy").data) =
      defaultAnalyzeResult ∧
    analyze_review_parse (fun _ => some ⟨("modify").data, ("r").data, []⟩)
      (("x\x7bok\x7dy").data) = ⟨("modify").data, ("r").data, []⟩ ∧
    review_code_parse (fun _ => none) (Except.error (("boom").data)) = [] ∧
    review_code_parse (fun _ => none) (Except.ok (("no brackets").data)) = [] ∧
    review_code_parse (fun _ => none) (Except.ok (("a[1]b").data)) = [] := by
  refine ⟨?_, ?_, ?_, ?_, ?_, ?_⟩
  · exact (model_response_parse_safe (fun _ => none) (fun _ => none)
      (("no json here").data) (Except.error [])).1 (by decide)
  · exact (model_response_parse_safe (fun _ => none) (fun _ => none)
      (("x\x7bbad\x7dy").data) (Except.error [])).2.1 (("\x7bbad\x7d").data)
      (by decide) rfl
  · exact (model_response_parse_safe (fun _ => some ⟨("modify").data, ("r").data, []⟩)
      (fun _ => none) (("x\x7bok\x7dy").data) (Except.error [])).2.2.1
      (("\x7bok\x7d").data) ⟨("modify").data, ("r").data, []⟩ (by decide) rfl
  · exact (model_response_parse_safe (fun _ => none) (fun _ => none) []
      (Except.error (("boom").data))).2.2.2.1 (("boom").data) rfl
  · exact (model_response_parse_safe (fun _ => none) (fun _ => none) []
      (Except.ok (("no brackets").data))).2.2.2.2.1 (("no brackets").data) rfl
      (by decide)
  · exact (model_response_parse_safe (fun _ => none) (fun _ => none) []
      (Except.ok (("a[1]b").data))).2.2.2.2.2.1 (("a[1]b").data) (("[1]").data)
      rfl (by decide) rfl

/-- The argument tuple of `review_code` and `analyze_file_changes`. -/
structure ReviewArgs where
  file_path : List Char
  patch : List Char
  file_content : List Char
  pr_context : List (List Char × List Char)

/-- A model backend as an instance of `BaseModel` (src/models/base.py lines
6-32): the base class itself defines `review_code` with a default body
returning the empty list, so every subclass instance carries the method;
subclasses such as `ClaudeCodeModel` override the default. -/
structure BaseModel where
  review_code : ReviewArgs → List ModelComment := fun _ => []

/-- Python `hasattr(model, "review_code")`: true for every `BaseModel`
instance because the attribute is defined by the base class itself. -/
def hasattrReviewCode (_ : BaseModel) : Bool := true

/-- Embeds `CodeReviewer._review_with_generic_prompt` (src/code_reviewer.py lines
54-75): returns the empty list. -/
def review_with_generic_fallback (_ : ReviewArgs) : List ModelComment := []

/-- Embeds `CodeReviewer.analyze_file_changes` (src/code_reviewer.py lines 19-52):
fall back to the generic path only when the model lacks `review_code`,
otherwise delegate to the model's `review_code`. -/
def analyze_file_changes (model : BaseModel) (args : ReviewArgs) :
    List ModelComment :=
  if hasattrReviewCode model then model.review_code args
  else review_with_generic_fallback args

/-- C10: for every model instance, `analyze_file_changes` returns exactly
the model's `review_code` on the same arguments — the `hasattr` guard always
succeeds because the base class defines `review_code` (whose default body
returns the empty list), so the generic-fallback branch (which returns the
empty list) is unreachable. -/
theorem analyze_file_changes_delegates (model : BaseModel) (args : ReviewArgs) :
    analyze_file_changes model args = model.review_code args ∧
    hasattrReviewCode model = true ∧
    review_with_generic_fallback args = [] ∧
    ({} : BaseModel).review_code args = [] :=
  ⟨rfl, rfl, rfl, rfl⟩

end PRAutoReviewer
